import Mathlib

/-!
A shallow embedding of the crawler in `scraper.py` (VikramTiwari/website-scraper).

Conventions used throughout:
* Python strings are Lean `String`s; all string utilities used by the code
  (`str.strip`, `str.startswith`, `urllib.parse.urlparse(...).netloc`) are
  re-implemented structurally below so that the kernel can evaluate them.
* Python `None` is `Option.none`; a Python function that may raise an
  exception which escapes to its caller is modelled with `Except`.
* Sets mutated by the crawl loop (`visited_urls`, `urls_to_visit`) are
  modelled as duplicate-free `List String` with set-semantics insertion;
  `set.pop()` removes an arbitrary element, modelled by a `pick` parameter
  choosing an index into the pending list.
* External collaborators (Playwright rendering, `urljoin`, uuid generation,
  wall-clock time) are parameters of the model: the rendered DOM is a
  `RenderedPage` value, `urljoin` is an abstract `resolve` function, and the
  generated uuid / timestamp are fields of a `ScrapeEnv` environment.
-/

/-! ### Python string helpers -/

/-- ASCII whitespace stripped by Python `str.strip()` (the code only ever
strips attribute/text content; non-ASCII whitespace is not modelled). -/
def pySpace (c : Char) : Bool :=
  c = ' ' || c = '\t' || c = '\n' || c = '\r' || c = '\x0b' || c = '\x0c'

/-- Python `s.strip()`. -/
def pyStrip (s : String) : String :=
  ⟨((s.data.dropWhile pySpace).reverse.dropWhile pySpace).reverse⟩

/-- Python `if s and s.strip(): return s.strip()` — the truthiness-plus-strip
pattern used by every extraction strategy in `scraper.py`. Returns the
stripped value when the test passes. -/
def pyTruthyStrip (s : String) : Option String :=
  if s ≠ "" ∧ pyStrip s ≠ "" then some (pyStrip s) else none

/-! ### `urllib.parse` model

`urlparse(url).netloc` as implemented by `urllib.parse.urlsplit`:
split a leading `scheme:` (only when the text before the first colon is a
letter followed by letters/digits/`+`/`-`/`.`), then, when the remainder
starts with `//`, the netloc is everything up to the next `/`, `?` or `#`. -/

/-- Characters allowed in a URL scheme (after the leading letter). -/
def schemeChars (c : Char) : Bool :=
  c.isAlphanum || c = '+' || c = '-' || c = '.'

/-- Split a character list at the first `':'`; `none` when there is no colon. -/
def splitAtColon : List Char → Option (List Char × List Char)
  | [] => none
  | c :: cs =>
    if c = ':' then some ([], cs)
    else
      match splitAtColon cs with
      | some (pre, post) => some (c :: pre, post)
      | none => none

/-- The remainder of the URL after removing a valid `scheme:`, mirroring
`urllib.parse.urlsplit`. -/
def restAfterScheme (u : List Char) : List Char :=
  match splitAtColon u with
  | some (pre, post) =>
    if pre ≠ [] ∧ (pre.headD ' ').isAlpha ∧ pre.all schemeChars then post else u
  | none => u

/-- `urllib.parse.urlparse(u).scheme` (lower-cased, `""` when absent). -/
def schemeOf (u : String) : String :=
  match splitAtColon u.data with
  | some (pre, _) =>
    if pre ≠ [] ∧ (pre.headD ' ').isAlpha ∧ pre.all schemeChars then
      ⟨pre.map Char.toLower⟩
    else ""
  | none => ""

/-- `urllib.parse.urlparse(u).netloc`. -/
def netlocOf (u : String) : String :=
  match restAfterScheme u.data with
  | '/' :: '/' :: rest =>
    ⟨rest.takeWhile (fun c => !(c = '/' || c = '?' || c = '#'))⟩
  | _ => ""

/-! ### Parameter defaulting at the `scrape_site` interface

`scraper.py` line 294: `max_pages = max_pages or config['scraper']['max_pages']`
— Python truthiness, so both `None` and `0` select the configured default.
Line 295: `headless = headless if headless is not None else config[...]` —
an explicit `is not None` test, so `False` is honoured. -/

/-- Line 294 of `scraper.py`: a falsy `max_pages` (None or 0) is replaced by
the configured default. -/
def resolveMaxPages : Option Nat → Nat → Nat
  | none, d => d
  | some n, d => if n = 0 then d else n

/-- Line 295 of `scraper.py`: `headless` defaults only when it `is None`. -/
def resolveHeadless : Option Bool → Bool → Bool
  | none, d => d
  | some b, _ => b

/-! ### `scroll_to_bottom` (scraper.py lines 23-51)

The loop keeps `last_height`, scrolls, re-measures, and stops when the new
height equals the previous one or when `scroll_count` reaches `max_scrolls`
(`scroll_count` is incremented only on iterations that do not break).
The sequence of DOM height measurements is modelled as `height : Nat → Nat`
(`height 0` is the measurement taken before the loop, `height k` the one
taken after the k-th scroll). After the k-th scroll the code compares
`height k` with `height (k-1)`, because `last_height` always holds the
previous measurement; the accumulator variable is eliminated accordingly.
The function returns the number of scroll operations performed. -/

def scrollSteps (height : Nat → Nat) : Nat → Nat → Nat
  | _, 0 => 0
  | idx, fuel + 1 =>
    if height (idx + 1) = height idx then 1
    else 1 + scrollSteps height (idx + 1) fuel

/-- Number of scrolls performed by `scroll_to_bottom` with measurement
sequence `height` and budget `maxScrolls`. -/
def scroll_to_bottom (height : Nat → Nat) (maxScrolls : Nat) : Nat :=
  scrollSteps height 0 maxScrolls

/-! ### Rendered pages and the field-extractor chain (scraper.py lines 53-156)

A `RenderedPage` records everything the extraction code reads from the DOM
after navigation, settling, scrolling and the clean-page script have run.
`page.title()` returns `""` when the document has no title (a raised
exception falls through to the fallbacks exactly like an empty title, so it
needs no separate constructor). Meta-tag fields are `none` when the tag is
absent or its lookup raised (both paths make `_get_title_from_meta` /
`_get_description_from_meta` return `None`). `anchors` lists the `href`
attribute of every `<a>` element, `none` when the attribute is missing or
its read raised (both are skipped per-link by the code). -/

structure RenderedPage where
  currentUrl : String
  titleTag : String
  h1Count : Nat
  h1Text : String
  ogTitle : Option String
  twitterTitle : Option String
  descMeta : Option String
  ogDesc : Option String
  twitterDesc : Option String
  pCount : Nat
  pText : String
  extraDescMetas : List (Option String)
  content : String
  anchors : List (Option String)

/-- `_get_title_from_meta` / the meta branches of `_get_description_from_meta`:
read the tag's `content` attribute (absent tag or raising lookup gives
`none`), return it stripped when truthy. -/
def metaContent : Option String → Option String
  | none => none
  | some s => pyTruthyStrip s

/-- The list handed to `asyncio.as_completed` in `get_page_title`
(scraper.py lines 85-89). The outer `Option` layer distinguishes a real
awaitable (`some` task-result) from the literal Python `None` that the
conditional expression places in the list when the page has no `h1`.
The inner `Option String` is the task's eventual result. -/
def titleTasks (pg : RenderedPage) : List (Option (Option String)) :=
  [ if pg.h1Count > 0 then some (some pg.h1Text) else none,
    some (metaContent pg.ogTitle),
    some (metaContent pg.twitterTitle) ]

/-- The task list of `get_page_description` (scraper.py lines 129-134); the
no-`<p>` branch likewise places a literal Python `None` in the list. -/
def descTasks (pg : RenderedPage) : List (Option (Option String)) :=
  [ some (metaContent pg.descMeta),
    some (metaContent pg.ogDesc),
    some (metaContent pg.twitterDesc),
    if pg.pCount > 0 then some (some pg.pText) else none ]

/-- The `for task in asyncio.as_completed(tasks)` loop body: visit the task
results in completion order (`order` lists indices into `results`; the
scheduler decides it, so it is a parameter), returning the first result that
passes `if result and result.strip()`, stripped. A task that raised is the
same as one that returned `None` (the loop logs and continues). -/
def raceFirst (results : List (Option String)) : List Nat → Option String
  | [] => none
  | i :: rest =>
    match (results.getD i none).bind pyTruthyStrip with
    | some t => some t
    | none => raceFirst results rest

/-- `get_page_title` (scraper.py lines 66-101). The title tag is tried
sequentially first. The fallback tasks are then raced — but
`asyncio.as_completed` raises `TypeError` as soon as the task list contains
a non-awaitable member (the literal `None` inserted when `h1` is absent),
and that call sits outside every `try` in `get_page_title`, so the error
escapes to the caller: modelled as `Except.error ()`. -/
def get_page_title (pg : RenderedPage) (order : List Nat) : Except Unit String :=
  match pyTruthyStrip pg.titleTag with
  | some t => .ok t
  | none =>
    let tasks := titleTasks pg
    if none ∈ tasks then .error ()
    else
      match raceFirst (tasks.map (fun t => t.getD none)) order with
      | some t => .ok t
      | none => .ok pg.currentUrl

/-- The last-resort scan of `get_page_description` (scraper.py lines
146-154): walk every `meta[name*="description"]` tag in document order and
return the first truthy stripped content. -/
def scanDescMetas : List (Option String) → Option String
  | [] => none
  | none :: rest => scanDescMetas rest
  | some s :: rest =>
    match pyTruthyStrip s with
    | some t => some t
    | none => scanDescMetas rest

/-- `get_page_description` (scraper.py lines 118-156); the same
`asyncio.as_completed` `TypeError` escape applies when the page has no
`<p>` element. A fully empty chain yields `none` (a valid description). -/
def get_page_description (pg : RenderedPage) (order : List Nat) :
    Except Unit (Option String) :=
  let tasks := descTasks pg
  if none ∈ tasks then .error ()
  else
    match raceFirst (tasks.map (fun t => t.getD none)) order with
    | some t => .ok (some t)
    | none => .ok (scanDescMetas pg.extraDescMetas)

/-! ### `scrape_page` (scraper.py lines 158-241) -/

/-- The dict built by `scrape_page` (its `links` after the sort on line 216). -/
structure PageRecord where
  url : String
  title : String
  description : Option String
  content : String
  links : List String
  updatedAt : String
deriving DecidableEq, Repr

/-- One file written by the save block of `scrape_page` (lines 218-235). -/
structure FileWrite where
  dir : String
  filename : String
  payload : PageRecord
deriving DecidableEq, Repr

/-- Outcome of `page.goto(url)` plus the waits: either the navigation path
raised (hitting the outer `except` of `scrape_page`) or it produced a
rendered DOM. -/
inductive NavResult where
  | fail
  | ok (pg : RenderedPage)

/-- Everything the outside world contributes to one `scrape_page` call: the
navigation outcome, the completion orders chosen by the scheduler for the
two extraction races, the uuid generated for the output filename, and the
`datetime.utcnow()` timestamp. -/
structure ScrapeEnv where
  nav : NavResult
  titleOrder : List Nat
  descOrder : List Nat
  uuid : String
  now : String

/-- Link harvesting (scraper.py lines 199-216): for every anchor, read
`href` (a missing attribute or raising read is skipped), skip falsy (empty)
hrefs, resolve against the *requested* url with `urljoin` (the abstract
`resolve` parameter), keep only results starting with `http://` or
`https://`, deduplicate via a set and sort. Python's `sorted` on a
duplicate-free list of strings is the unique ascending reordering, which
`List.insertionSort` also produces. -/
def extractLinks (resolve : String → String → String) (url : String)
    (anchors : List (Option String)) : List String :=
  let abs := anchors.filterMap fun h =>
    match h with
    | none => none
    | some href =>
      if href = "" then none
      else
        let a := resolve url href
        if "http://".isPrefixOf a || "https://".isPrefixOf a then some a
        else none
  List.insertionSort (· ≤ ·) abs.dedup

/-- `scrape_page` (scraper.py lines 158-241). Any exception inside the big
`try` — navigation failure, or the `TypeError` escaping from either
extraction race — makes the function return `None`. On success it returns
the record *and* the file write it performs on lines 218-235 (one JSON file
named `uuid.json` in a directory keyed by the requested url's netloc; a
failure of the write itself is caught and logged, so the attempted write is
the modelled effect). -/
def scrape_page (resolve : String → String → String) (outputDir : String)
    (url : String) (env : ScrapeEnv) : Option (PageRecord × List FileWrite) :=
  match env.nav with
  | .fail => none
  | .ok pg =>
    match get_page_title pg env.titleOrder with
    | .error _ => none
    | .ok title =>
      match get_page_description pg env.descOrder with
      | .error _ => none
      | .ok desc =>
        let record : PageRecord :=
          ⟨pg.currentUrl, title, desc, pg.content,
           extractLinks resolve url pg.anchors, env.now⟩
        some (record,
          [⟨outputDir ++ "/" ++ netlocOf url, env.uuid ++ ".json", record⟩])

/-! ### `AsyncPagePool` (scraper.py lines 243-280)

Handles are identified by `Nat` ids; `next` is the supply of fresh ids for
`browser.new_page()`. `createdCount` counts only on-demand creations (those
made by `get_page` on an empty pool), `closed` records handles disposed by
`return_page`. Every mutating operation runs under `self.lock`, and the
crawl loop calls them sequentially anyway, so plain state passing is
faithful. -/

structure PoolState where
  poolSize : Nat
  idle : List Nat
  next : Nat
  createdCount : Nat
  closed : List Nat
deriving DecidableEq, Repr

/-- `initialize` (lines 253-257): pre-create `poolSize` pages. -/
def initializePool (poolSize firstId : Nat) : PoolState :=
  ⟨poolSize, (List.range poolSize).map (· + firstId), firstId + poolSize, 0, []⟩

/-- `get_page` (lines 259-264): `self.pages.pop()` removes the *last* idle
handle; an empty pool creates a fresh page instead — never blocking. -/
def get_page (st : PoolState) : Nat × PoolState :=
  if st.idle.isEmpty then
    (st.next, { st with next := st.next + 1, createdCount := st.createdCount + 1 })
  else
    (st.idle.getLastD 0, { st with idle := st.idle.dropLast })

/-- `return_page` (lines 266-273): append to the idle list when it has fewer
than `poolSize` members, otherwise close the page. -/
def return_page (st : PoolState) (h : Nat) : PoolState :=
  if st.idle.length < st.poolSize then { st with idle := st.idle ++ [h] }
  else { st with closed := h :: st.closed }

/-- The acquisition phase of one batch (scraper.py lines 331-334): one
`get_page` per URL, sequentially. Returns the handles in acquisition order. -/
def acquireMany : Nat → PoolState → List Nat × PoolState
  | 0, st => ([], st)
  | n + 1, st =>
    ((get_page st).1 :: (acquireMany n (get_page st).2).1,
     (acquireMany n (get_page st).2).2)

/-- The release phase of one batch (scraper.py line 341): one `return_page`
per handle, sequentially in result order. -/
def releaseMany : List Nat → PoolState → PoolState
  | [], st => st
  | h :: hs, st => releaseMany hs (return_page st h)

/-! ### `scrape_site` (scraper.py lines 282-357)

The frontier loop. `visited_urls` and `urls_to_visit` are Python sets; they
are modelled as duplicate-free lists, with `set.pop()` realised by a `pick`
function that chooses an index into the current pending list (Python's pop
order is deterministic but unspecified; every `pick` is one possible run).
The page pool is modelled separately above: which pooled handle a URL is
processed on does not influence the record produced (`scrape_page`'s
outcome depends only on the url and its environment), so the frontier state
omits pool bookkeeping. `asyncio.gather(..., return_exceptions=True)` can
hand back a record dict, `None`, or an exception object; the exception and
`None` branches of lines 343-345 both skip the result, so both are `none`
in the model. -/

structure CrawlState where
  visited : List String
  pending : List String
  scraped : List PageRecord
deriving DecidableEq, Repr

/-- `urls_to_visit.pop()`: remove the element at the index chosen by `pick`
(reduced mod the length so that any `pick` is meaningful). -/
def popPick (pick : List String → Nat) : List String → Option (String × List String)
  | [] => none
  | x :: xs =>
    let l := x :: xs
    let i := pick l % l.length
    some (l.getD i x, l.eraseIdx i)

/-- State of the inner batch-forming loop (scraper.py lines 316-321). -/
structure BatchResult where
  batch : List String
  visited : List String
  pending : List String
deriving DecidableEq, Repr

/-- The inner `while` of lines 317-321: keep popping while the batch is
under `batch_size`, pending is non-empty and `len(scraped) + len(batch)`
is under `max_pages`; a popped url not yet visited joins the batch and is
marked visited immediately. The fuel is the pending length: every
iteration removes one pending element, so the guard always goes false
before the fuel runs out. -/
def formBatchAux (pick : List String → Nat) (batchSize maxPages scrapedLen : Nat) :
    Nat → BatchResult → BatchResult
  | 0, s => s
  | fuel + 1, s =>
    if s.batch.length < batchSize ∧ s.pending ≠ [] ∧
        scrapedLen + s.batch.length < maxPages then
      match popPick pick s.pending with
      | none => s
      | some (url, rest) =>
        if url ∈ s.visited then
          formBatchAux pick batchSize maxPages scrapedLen fuel
            ⟨s.batch, s.visited, rest⟩
        else
          formBatchAux pick batchSize maxPages scrapedLen fuel
            ⟨s.batch ++ [url], s.visited ++ [url], rest⟩
    else s

def formBatch (pick : List String → Nat) (batchSize maxPages scrapedLen : Nat)
    (visited pending : List String) : BatchResult :=
  formBatchAux pick batchSize maxPages scrapedLen pending.length ⟨[], visited, pending⟩

/-- Folding one record's links into the frontier (scraper.py lines 348-351):
a link is queued iff its `urlparse` netloc equals the start url's netloc and
it is not in `visited_urls`; adding to the pending *set* is a no-op when the
link is already queued. -/
def foldLinks (startDomain : String) (visited : List String) :
    List String → List String → List String
  | pending, [] => pending
  | pending, link :: rest =>
    foldLinks startDomain visited
      (if netlocOf link = startDomain ∧ link ∉ visited ∧ link ∉ pending
       then pending ++ [link] else pending) rest

/-- The result-processing loop (scraper.py lines 340-351): walk the batch
results in order; a `none` (failure or exception) is skipped; a record is
appended to the scraped list and its links folded into pending. -/
def processResults (startDomain : String) (visited : List String) :
    List (Option PageRecord) → List PageRecord → List String →
    List PageRecord × List String
  | [], scraped, pending => (scraped, pending)
  | none :: rest, scraped, pending =>
    processResults startDomain visited rest scraped pending
  | some r :: rest, scraped, pending =>
    processResults startDomain visited rest (scraped ++ [r])
      (foldLinks startDomain visited pending r.links)

/-- One iteration of the outer `while` (lines 314-351): form a batch (which
may mutate visited/pending), break when it is empty, otherwise dispatch
`scrape_page` on every batch member and process the results. The `Bool`
is the `break` flag of line 324. -/
def crawlStep (pick : List String → Nat) (fetch : String → Option PageRecord)
    (startDomain : String) (batchSize maxPages : Nat) (st : CrawlState) :
    CrawlState × Bool :=
  let fb := formBatch pick batchSize maxPages st.scraped.length st.visited st.pending
  if fb.batch = [] then (⟨fb.visited, fb.pending, st.scraped⟩, true)
  else
    let pr := processResults startDomain fb.visited (fb.batch.map fetch)
      st.scraped fb.pending
    (⟨fb.visited, pr.2, pr.1⟩, false)

/-- The outer `while urls_to_visit and len(scraped_data) < max_pages` loop.
`fuel` bounds the number of iterations modelled; the loop itself terminates
because every iteration either grows the scraped list (bounded by
`max_pages`) or, when every batch member fails, strictly shrinks pending —
the invariants proved below hold at every iteration boundary, so they hold
at exit for every run. -/
def crawlLoop (pick : List String → Nat) (fetch : String → Option PageRecord)
    (startDomain : String) (batchSize maxPages : Nat) :
    Nat → CrawlState → CrawlState
  | 0, st => st
  | fuel + 1, st =>
    if st.pending ≠ [] ∧ st.scraped.length < maxPages then
      match crawlStep pick fetch startDomain batchSize maxPages st with
      | (st', true) => st'
      | (st', false) => crawlLoop pick fetch startDomain batchSize maxPages fuel st'
    else st

/-- `scrape_site` (lines 282-357): resolve the falsy-defaulted `max_pages`,
compute the start domain, run the frontier loop from
`visited = {}`, `pending = {start_url}`, and return the scraped records.
Each URL's `scrape_page` call is driven by the world's `ScrapeEnv` for that
URL; only the record (not the file-write effect) flows back into the loop. -/
def scrape_site (pick : List String → Nat) (world : String → ScrapeEnv)
    (resolve : String → String → String) (outputDir : String)
    (start_url : String) (max_pages : Option Nat) (defaultMaxPages : Nat)
    (batch_size : Nat) (fuel : Nat) : List PageRecord :=
  let maxPages := resolveMaxPages max_pages defaultMaxPages
  let startDomain := netlocOf start_url
  let fetch := fun url => (scrape_page resolve outputDir url (world url)).map Prod.fst
  (crawlLoop pick fetch startDomain batch_size maxPages fuel
    ⟨[], [start_url], []⟩).scraped

/-! ### Concrete inputs used by counterexamples and witnesses -/

/-- One possible `set.pop()` order: always the first listed element. -/
def pick0 : List String → Nat := fun _ => 0

/-- A `urljoin` world in which every harvested href is already absolute. -/
def resolveId : String → String → String := fun _ href => href

def recA : PageRecord :=
  ⟨"https://x.test/a", "A", none, "", ["https://x.test/b", "https://x.test/c"], "t0"⟩

/-- Seed succeeds with two in-domain links; both of those links fail. -/
def fetchC1 : String → Option PageRecord := fun u =>
  if u = "https://x.test/a" then some recA else none

def recA4 : PageRecord :=
  ⟨"https://x.test/a", "A", none, "",
   ["https://x.test/b", "https://x.test/c", "https://x.test/d"], "t0"⟩

def recB : PageRecord := ⟨"https://x.test/b", "B", none, "", [], "t0"⟩

def recD : PageRecord := ⟨"https://x.test/d", "D", none, "", [], "t0"⟩

/-- Seed links to b, c, d; navigation fails for c only. -/
def fetchC4 : String → Option PageRecord := fun u =>
  if u = "https://x.test/a" then some recA4
  else if u = "https://x.test/b" then some recB
  else if u = "https://x.test/d" then some recD
  else none

/-- A page with an empty title tag, *no* `h1`, and a perfectly good
Open-Graph title — the scenario named by the extraction-fallback property. -/
def titleBugPage : RenderedPage :=
  { currentUrl := "https://x.test/a", titleTag := "", h1Count := 0, h1Text := "",
    ogTitle := some "  Hello  ", twitterTitle := none,
    descMeta := none, ogDesc := none, twitterDesc := none,
    pCount := 1, pText := "hi", extraDescMetas := [], content := "<html/>",
    anchors := [] }

/-- An ordinary page whose title tag succeeds immediately. -/
def okPage : RenderedPage :=
  { currentUrl := "https://x.test/a", titleTag := "Seed", h1Count := 1, h1Text := "H",
    ogTitle := none, twitterTitle := none, descMeta := none, ogDesc := none,
    twitterDesc := none, pCount := 1, pText := "hi", extraDescMetas := [],
    content := "<html/>", anchors := [] }

def okEnv : ScrapeEnv := ⟨.ok okPage, [0, 1, 2], [0, 1, 2, 3], "u1", "t0"⟩

def worldOk : String → ScrapeEnv := fun _ => okEnv

/-- The record and file write produced by `scrape_page` on `okEnv`. -/
def okRec : PageRecord := ⟨"https://x.test/a", "Seed", some "hi", "<html/>", [], "t0"⟩

def okWrite : FileWrite := ⟨"outputs/x.test", "u1.json", okRec⟩

/-- The completed crawl run in which the seed succeeds but both of its
discovered links fail to navigate (`maxPages = 2`, `batchSize = 2`). -/
def c1Run : CrawlState :=
  crawlLoop pick0 fetchC1 "x.test" 2 2 10 ⟨[], ["https://x.test/a"], []⟩

/-- The completed crawl run dispatching a batch of three URLs of which
exactly one (`.../c`) fails (`maxPages = 10`, `batchSize = 3`). -/
def c4Run : CrawlState :=
  crawlLoop pick0 fetchC4 "x.test" 3 10 10 ⟨[], ["https://x.test/a"], []⟩

/-- Relation between the batch-forming loop's entry state `s` and exit state
`t`, bundling every fact the frontier-invariant proofs need: preserved
well-formedness, monotone visited, pending only shrinks (into the batch),
batch members are marked visited, and the record-count budget guard. -/
def FBInv (sl mp : Nat) (s t : BatchResult) : Prop :=
  t.pending.Nodup ∧ t.visited.Disjoint t.pending ∧ t.batch ⊆ t.visited ∧
  s.visited ⊆ t.visited ∧ t.pending ⊆ s.pending ∧
  (∀ u ∈ s.pending, u ∈ t.pending ∨ u ∈ t.batch) ∧
  (∀ u ∈ t.batch, u ∈ s.batch ∨ u ∈ s.pending) ∧
  (∀ u ∈ t.visited, u ∈ s.visited ∨ u ∈ t.batch) ∧
  (sl + s.batch.length ≤ mp → sl + t.batch.length ≤ mp) ∧
  s.batch ⊆ t.batch

/-! ## Lemmas -/

/-! ### List helpers for the `set.pop()` model -/

theorem getD_mem_of_lt {α : Type _} :
    ∀ (l : List α) (i : Nat) (d : α), i < l.length → l.getD i d ∈ l
  | x :: xs, 0, d, _ => List.mem_cons_self x xs
  | _ :: xs, i + 1, d, h =>
    List.mem_cons_of_mem _ (getD_mem_of_lt xs i d (Nat.lt_of_succ_lt_succ h))

theorem nodup_getD_not_mem_eraseIdx {α : Type _} :
    ∀ (l : List α) (i : Nat) (d : α), i < l.length → l.Nodup →
      l.getD i d ∉ l.eraseIdx i
  | x :: xs, 0, d, _, hnd => by
    simpa using (List.nodup_cons.mp hnd).1
  | x :: xs, i + 1, d, h, hnd => by
    have h' : i < xs.length := Nat.lt_of_succ_lt_succ h
    have hnd' := List.nodup_cons.mp hnd
    intro hmem
    rcases List.mem_cons.mp hmem with he | hm
    · exact hnd'.1 (he ▸ getD_mem_of_lt xs i d h')
    · exact nodup_getD_not_mem_eraseIdx xs i d h' hnd'.2 hm

theorem mem_eraseIdx_of_ne {α : Type _} {v : α} :
    ∀ (l : List α) (i : Nat) (d : α), v ∈ l → v ≠ l.getD i d →
      v ∈ l.eraseIdx i
  | x :: xs, 0, d, hv, hne => by
    rcases List.mem_cons.mp hv with he | hm
    · exact absurd he hne
    · simpa using hm
  | x :: xs, i + 1, d, hv, hne => by
    rcases List.mem_cons.mp hv with he | hm
    · simp [he]
    · exact List.mem_cons_of_mem _ (mem_eraseIdx_of_ne xs i d hm hne)

/-- Everything the crawl-loop proofs need about one `set.pop()`. -/
theorem popPick_spec {pick : List String → Nat} {l rest : List String} {u : String}
    (h : popPick pick l = some (u, rest)) :
    u ∈ l ∧ rest ⊆ l ∧ rest.length + 1 = l.length ∧
      (l.Nodup → rest.Nodup ∧ u ∉ rest) ∧
      (∀ v ∈ l, v = u ∨ v ∈ rest) := by
  match l with
  | [] => simp [popPick] at h
  | x :: xs =>
    simp only [popPick] at h
    obtain ⟨hu, hrest⟩ := Prod.mk.injEq _ _ _ _ ▸ Option.some.injEq _ _ ▸ h
    have hlen : 0 < (x :: xs).length := by simp
    have hi : pick (x :: xs) % (x :: xs).length < (x :: xs).length :=
      Nat.mod_lt _ hlen
    subst hu hrest
    refine ⟨getD_mem_of_lt _ _ _ hi, List.eraseIdx_subset _ _, ?_, ?_, ?_⟩
    · have := List.length_eraseIdx (l := x :: xs)
        (i := pick (x :: xs) % (x :: xs).length)
      rw [this, if_pos hi]
      omega
    · intro hnd
      exact ⟨(List.eraseIdx_sublist _ _).nodup hnd,
        nodup_getD_not_mem_eraseIdx _ _ _ hi hnd⟩
    · intro v hv
      by_cases hvu : v = (x :: xs).getD (pick (x :: xs) % (x :: xs).length) x
      · exact Or.inl hvu
      · exact Or.inr (mem_eraseIdx_of_ne _ _ _ hv hvu)

/-! ### `foldLinks` -/

theorem mem_foldLinks (dom : String) (visited : List String) :
    ∀ (links pending : List String) (u : String),
      u ∈ foldLinks dom visited pending links ↔
        u ∈ pending ∨ (u ∈ links ∧ netlocOf u = dom ∧ u ∉ visited)
  | [], pending, u => by simp [foldLinks]
  | link :: rest, pending, u => by
    rw [foldLinks, mem_foldLinks dom visited rest]
    by_cases hc : netlocOf link = dom ∧ link ∉ visited ∧ link ∉ pending
    · rw [if_pos hc]
      obtain ⟨hc1, hc2, hc3⟩ := hc
      simp only [List.mem_append, List.mem_cons, List.not_mem_nil, or_false]
      constructor
      · rintro ((h | rfl) | h)
        · exact Or.inl h
        · exact Or.inr ⟨Or.inl rfl, hc1, hc2⟩
        · exact Or.inr ⟨Or.inr h.1, h.2⟩
      · rintro (h | ⟨(rfl | h), hp⟩)
        · exact Or.inl (Or.inl h)
        · exact Or.inl (Or.inr rfl)
        · exact Or.inr ⟨h, hp⟩
    · rw [if_neg hc]
      simp only [List.mem_cons]
      constructor
      · rintro (h | h)
        · exact Or.inl h
        · exact Or.inr ⟨Or.inr h.1, h.2⟩
      · rintro (h | ⟨(rfl | h), hp⟩)
        · exact Or.inl h
        · -- the link was filtered out: since its domain matches and it is
          -- unvisited, it must already be pending
          rcases not_and_or.mp hc with hd | hc'
          · exact absurd hp.1 hd
          · rcases not_and_or.mp hc' with hv | hpend
            · exact absurd hp.2 hv
            · exact Or.inl (not_not.mp hpend)
        · exact Or.inr ⟨h, hp⟩

theorem foldLinks_subset (dom : String) (visited : List String) :
    ∀ (links pending : List String), pending ⊆ foldLinks dom visited pending links
  | [], pending => by simp [foldLinks]
  | link :: rest, pending => by
    rw [foldLinks]
    intro v hv
    refine foldLinks_subset dom visited rest _ ?_
    split
    · exact List.mem_append_left _ hv
    · exact hv

theorem foldLinks_nodup (dom : String) (visited : List String) :
    ∀ (links pending : List String), pending.Nodup →
      (foldLinks dom visited pending links).Nodup
  | [], pending, h => by simpa [foldLinks] using h
  | link :: rest, pending, h => by
    rw [foldLinks]
    refine foldLinks_nodup dom visited rest _ ?_
    split
    · next hc => simp [List.nodup_append, h, hc.2.2]
    · exact h

theorem foldLinks_disjoint (dom : String) (visited : List String)
    (links pending : List String) (h : visited.Disjoint pending) :
    visited.Disjoint (foldLinks dom visited pending links) := by
  intro a ha hfold
  rcases (mem_foldLinks dom visited links pending a).mp hfold with hp | hq
  · exact h ha hp
  · exact hq.2.2 ha

/-! ### The batch-forming loop -/

theorem formBatchAux_spec (pick : List String → Nat) (bs mp sl : Nat) :
    ∀ (fuel : Nat) (s : BatchResult),
      s.pending.Nodup → s.visited.Disjoint s.pending → s.batch ⊆ s.visited →
      FBInv sl mp s (formBatchAux pick bs mp sl fuel s)
  | 0, s, hnd, hdisj, _ =>
    ⟨hnd, hdisj, by assumption, List.Subset.refl _, List.Subset.refl _,
     fun _ hu => Or.inl hu, fun _ hu => Or.inl hu, fun _ hu => Or.inl hu,
     id, List.Subset.refl _⟩
  | fuel + 1, ⟨batch, visited, pending⟩, hnd, hdisj, hbv => by
    rw [formBatchAux]
    split
    · next hcond =>
      obtain ⟨hbs, hpne, hcount⟩ := hcond
      match pending, hnd, hdisj, hpne with
      | x :: xs, hnd, hdisj, _ =>
        rcases hpop : popPick pick (x :: xs) with _ | ⟨u, rest⟩
        · simp [popPick] at hpop
        · obtain ⟨humem, hsub, _, hnodupf, hsplit⟩ := popPick_spec hpop
          obtain ⟨hrestnd, hunotin⟩ := hnodupf hnd
          dsimp only
          split
          · next huv =>
            -- the popped url is already visited: impossible, since visited
            -- and pending are disjoint
            exact absurd humem (hdisj huv)
          · next huv =>
            have hdisj' : (visited ++ [u]).Disjoint rest := by
              intro a ha har
              rcases List.mem_append.mp ha with h | h
              · exact hdisj h (hsub har)
              · exact hunotin (List.mem_singleton.mp h ▸ har)
            have hbv' : batch ++ [u] ⊆ visited ++ [u] :=
              List.append_subset.mpr
                ⟨hbv.trans (List.subset_append_left _ _),
                 List.subset_append_right _ _⟩
            obtain ⟨ind, idisj, ibv, ivis, ipsub, isplit, ibatch, ivisor,
              icount, ibmono⟩ :=
              formBatchAux_spec pick bs mp sl fuel ⟨batch ++ [u], visited ++ [u], rest⟩
                hrestnd hdisj' hbv'
            refine ⟨ind, idisj, ibv, ?_, ?_, ?_, ?_, ?_, ?_, ?_⟩
            · exact (List.subset_append_left _ _).trans ivis
            · exact ipsub.trans hsub
            · intro v hv
              rcases hsplit v hv with rfl | hvrest
              · exact Or.inr (ibmono (List.mem_append_right _ (List.mem_singleton_self _)))
              · exact isplit v hvrest
            · intro v hv
              rcases ibatch v hv with h | h
              · rcases List.mem_append.mp h with h' | h'
                · exact Or.inl h'
                · exact Or.inr (List.mem_singleton.mp h' ▸ humem)
              · exact Or.inr (hsub h)
            · intro v hv
              rcases ivisor v hv with h | h
              · rcases List.mem_append.mp h with h' | h'
                · exact Or.inl h'
                · exact Or.inr (ibmono
                    (List.mem_singleton.mp h' ▸
                      List.mem_append_right _ (List.mem_singleton_self _)))
              · exact Or.inr h
            · intro _
              refine icount ?_
              dsimp only at hcount ⊢
              simp only [List.length_append, List.length_singleton]
              omega
            · exact (List.subset_append_left _ _).trans ibmono
    · exact ⟨hnd, hdisj, hbv, List.Subset.refl _, List.Subset.refl _,
        fun _ hu => Or.inl hu, fun _ hu => Or.inl hu, fun _ hu => Or.inl hu,
        id, List.Subset.refl _⟩

/-- `formBatch` starts the inner loop from an empty batch. -/
theorem formBatch_spec (pick : List String → Nat) (bs mp sl : Nat)
    (visited pending : List String) (hnd : pending.Nodup)
    (hdisj : visited.Disjoint pending) :
    FBInv sl mp ⟨[], visited, pending⟩ (formBatch pick bs mp sl visited pending) :=
  formBatchAux_spec pick bs mp sl pending.length ⟨[], visited, pending⟩
    hnd hdisj (List.nil_subset _)

/-! ### The result-processing loop -/

theorem processResults_spec (dom : String) (visited : List String) :
    ∀ (results : List (Option PageRecord)) (scraped : List PageRecord)
      (pending : List String),
      (processResults dom visited results scraped pending).1 =
          scraped ++ results.filterMap id ∧
      pending ⊆ (processResults dom visited results scraped pending).2 ∧
      (∀ u ∈ (processResults dom visited results scraped pending).2,
          u ∈ pending ∨ ∃ r, some r ∈ results ∧ u ∈ r.links ∧
            netlocOf u = dom ∧ u ∉ visited) ∧
      (pending.Nodup → (processResults dom visited results scraped pending).2.Nodup) ∧
      (visited.Disjoint pending →
        visited.Disjoint (processResults dom visited results scraped pending).2)
  | [], scraped, pending => by
    refine ⟨by simp [processResults], List.Subset.refl _, ?_, id, id⟩
    intro u hu
    exact Or.inl hu
  | none :: rest, scraped, pending => by
    obtain ⟨h1, h2, h3, h4, h5⟩ := processResults_spec dom visited rest scraped pending
    refine ⟨by simpa [processResults] using h1, h2, ?_, h4, h5⟩
    intro u hu
    rcases h3 u hu with h | ⟨r, hr, hrest⟩
    · exact Or.inl h
    · exact Or.inr ⟨r, List.mem_cons_of_mem _ hr, hrest⟩
  | some r :: rest, scraped, pending => by
    obtain ⟨h1, h2, h3, h4, h5⟩ := processResults_spec dom visited rest (scraped ++ [r])
      (foldLinks dom visited pending r.links)
    refine ⟨?_, ?_, ?_, ?_, ?_⟩
    · show (processResults dom visited rest (scraped ++ [r])
        (foldLinks dom visited pending r.links)).1 = _
      rw [h1]
      simp [List.filterMap_cons]
    · exact (foldLinks_subset dom visited r.links pending).trans h2
    · intro u hu
      rcases h3 u hu with h | ⟨r', hr', hrest⟩
      · rcases (mem_foldLinks dom visited r.links pending u).mp h with h' | h'
        · exact Or.inl h'
        · exact Or.inr ⟨r, List.mem_cons_self _ _, h'⟩
      · exact Or.inr ⟨r', List.mem_cons_of_mem _ hr', hrest⟩
    · intro hnd
      exact h4 (foldLinks_nodup dom visited r.links pending hnd)
    · intro hdisj
      exact h5 (foldLinks_disjoint dom visited r.links pending hdisj)

/-! ### One iteration of the outer loop -/

theorem crawlStep_spec (pick : List String → Nat) (fetch : String → Option PageRecord)
    (dom : String) (bs mp : Nat) (st : CrawlState)
    (hnd : st.pending.Nodup) (hdisj : st.visited.Disjoint st.pending) :
    st.visited ⊆ (crawlStep pick fetch dom bs mp st).1.visited ∧
    (formBatch pick bs mp st.scraped.length st.visited st.pending).batch ⊆
      (formBatch pick bs mp st.scraped.length st.visited st.pending).visited ∧
    (∀ u ∈ st.pending, u ∈ (crawlStep pick fetch dom bs mp st).1.pending ∨
        u ∈ (formBatch pick bs mp st.scraped.length st.visited st.pending).batch) ∧
    (∀ u ∈ (crawlStep pick fetch dom bs mp st).1.pending,
        u ∈ st.pending ∨
          ∃ r, some r ∈ (formBatch pick bs mp st.scraped.length
              st.visited st.pending).batch.map fetch ∧
            u ∈ r.links ∧ netlocOf u = dom ∧
            u ∉ (formBatch pick bs mp st.scraped.length st.visited st.pending).visited) ∧
    (crawlStep pick fetch dom bs mp st).1.pending.Nodup ∧
    (crawlStep pick fetch dom bs mp st).1.visited.Disjoint
      (crawlStep pick fetch dom bs mp st).1.pending ∧
    (st.scraped.length < mp → (crawlStep pick fetch dom bs mp st).1.scraped.length ≤ mp) := by
  obtain ⟨fnd, fdisj, fbv, fvis, fpsub, fsplit, fbatch, fvisor, fcount, _⟩ :=
    formBatch_spec pick bs mp st.scraped.length st.visited st.pending hnd hdisj
  by_cases hb : (formBatch pick bs mp st.scraped.length st.visited st.pending).batch = []
  · have hstep : crawlStep pick fetch dom bs mp st =
        (⟨(formBatch pick bs mp st.scraped.length st.visited st.pending).visited,
          (formBatch pick bs mp st.scraped.length st.visited st.pending).pending,
          st.scraped⟩, true) := by
      simp [crawlStep, hb]
    rw [hstep]
    exact ⟨fvis, fbv, fun u hu => fsplit u hu, fun u hu => Or.inl (fpsub hu),
      fnd, fdisj, fun h => Nat.le_of_lt h⟩
  · obtain ⟨p1, p2, p3, p4, p5⟩ := processResults_spec dom
      (formBatch pick bs mp st.scraped.length st.visited st.pending).visited
      ((formBatch pick bs mp st.scraped.length st.visited st.pending).batch.map fetch)
      st.scraped
      (formBatch pick bs mp st.scraped.length st.visited st.pending).pending
    have hstep : crawlStep pick fetch dom bs mp st =
        (⟨(formBatch pick bs mp st.scraped.length st.visited st.pending).visited,
          (processResults dom
            (formBatch pick bs mp st.scraped.length st.visited st.pending).visited
            ((formBatch pick bs mp st.scraped.length st.visited st.pending).batch.map fetch)
            st.scraped
            (formBatch pick bs mp st.scraped.length st.visited st.pending).pending).2,
          (processResults dom
            (formBatch pick bs mp st.scraped.length st.visited st.pending).visited
            ((formBatch pick bs mp st.scraped.length st.visited st.pending).batch.map fetch)
            st.scraped
            (formBatch pick bs mp st.scraped.length st.visited st.pending).pending).1⟩,
          false) := by
      simp [crawlStep, hb]
    rw [hstep]
    refine ⟨fvis, fbv, ?_, ?_, p4 fnd, p5 fdisj, ?_⟩
    · intro u hu
      rcases fsplit u hu with h | h
      · exact Or.inl (p2 h)
      · exact Or.inr h
    · intro u hu
      rcases p3 u hu with h | ⟨r, hr, hl, hd, hv⟩
      · exact Or.inl (fpsub h)
      · exact Or.inr ⟨r, hr, hl, hd, hv⟩
    · intro hlt
      show (processResults dom
          (formBatch pick bs mp st.scraped.length st.visited st.pending).visited
          ((formBatch pick bs mp st.scraped.length st.visited st.pending).batch.map fetch)
          st.scraped
          (formBatch pick bs mp st.scraped.length st.visited st.pending).pending).1.length ≤ mp
      rw [p1]
      have h1 := List.length_filterMap_le id
        ((formBatch pick bs mp st.scraped.length st.visited st.pending).batch.map fetch)
      have h2 := List.length_map
        (formBatch pick bs mp st.scraped.length st.visited st.pending).batch fetch
      have hc := fcount (by dsimp only; simp only [List.length_nil]; omega)
      simp only [List.length_append]
      omega

/-! ### The outer loop -/

theorem crawlLoop_inv (pick : List String → Nat) (fetch : String → Option PageRecord)
    (dom : String) (bs mp : Nat) :
    ∀ (fuel : Nat) (st : CrawlState), st.pending.Nodup →
      st.visited.Disjoint st.pending →
      st.visited ⊆ (crawlLoop pick fetch dom bs mp fuel st).visited ∧
      (crawlLoop pick fetch dom bs mp fuel st).pending.Nodup ∧
      (crawlLoop pick fetch dom bs mp fuel st).visited.Disjoint
        (crawlLoop pick fetch dom bs mp fuel st).pending ∧
      (st.scraped.length ≤ mp →
        (crawlLoop pick fetch dom bs mp fuel st).scraped.length ≤ mp)
  | 0, st, hnd, hdisj => ⟨List.Subset.refl _, hnd, hdisj, id⟩
  | fuel + 1, st, hnd, hdisj => by
    rw [crawlLoop]
    split
    · next hguard =>
      obtain ⟨s1, _, _, _, s5, s6, s7⟩ := crawlStep_spec pick fetch dom bs mp st hnd hdisj
      rcases hstep : crawlStep pick fetch dom bs mp st with ⟨st', brk⟩
      rw [hstep] at s1 s5 s6 s7
      cases brk
      · obtain ⟨i1, i2, i3, i4⟩ := crawlLoop_inv pick fetch dom bs mp fuel st' s5 s6
        exact ⟨s1.trans i1, i2, i3, fun _ => i4 (s7 hguard.2)⟩
      · exact ⟨s1, s5, s6, fun _ => s7 hguard.2⟩
    · exact ⟨List.Subset.refl _, hnd, hdisj, id⟩

/-! ### The page pool -/

theorem get_page_parts (st : PoolState) :
    (get_page st).2.poolSize = st.poolSize ∧
    (st.idle = [] →
      (get_page st).2.idle = st.idle ∧
      (get_page st).2.createdCount = st.createdCount + 1) ∧
    (st.idle ≠ [] →
      (get_page st).1 ∈ st.idle ∧
      (get_page st).2.idle = st.idle.dropLast ∧
      (get_page st).2.createdCount = st.createdCount) := by
  by_cases he : st.idle.isEmpty
  · have hnil := List.isEmpty_iff.mp he
    refine ⟨by simp [get_page, he], fun _ => ⟨by simp [get_page, he, hnil], by simp [get_page, he]⟩, fun hne => absurd hnil hne⟩
  · have hne : st.idle ≠ [] := fun h => he (List.isEmpty_iff.mpr h)
    refine ⟨by simp [get_page, he], fun h => absurd h hne, fun _ => ⟨?_, by simp [get_page, he], by simp [get_page, he]⟩⟩
    match hl : st.idle, hne with
    | x :: xs, _ =>
      have hmem := List.getLastD_mem_cons xs x
      have : (x :: xs).getLastD 0 = xs.getLastD x := List.getLastD_cons _ _ _
      simp only [get_page, hl]
      simp only [List.isEmpty_cons]
      rw [this]
      exact hmem

theorem return_page_parts (st : PoolState) (h : Nat) :
    (return_page st h).poolSize = st.poolSize ∧
    (st.idle.length < st.poolSize → (return_page st h).idle = st.idle ++ [h]) ∧
    (¬ st.idle.length < st.poolSize →
      (return_page st h).idle = st.idle ∧ h ∈ (return_page st h).closed) := by
  by_cases hlt : st.idle.length < st.poolSize
  · exact ⟨by simp [return_page, hlt], fun _ => by simp [return_page, hlt],
      fun hc => absurd hlt hc⟩
  · exact ⟨by simp [return_page, hlt], fun hc => absurd hc hlt,
      fun _ => ⟨by simp [return_page, hlt], by simp [return_page, hlt]⟩⟩

theorem acquireMany_drain :
    ∀ (n : Nat) (st : PoolState),
      (acquireMany n st).1.length = n ∧
      (acquireMany n st).2.poolSize = st.poolSize ∧
      (acquireMany n st).2.idle.length = st.idle.length - n ∧
      (acquireMany n st).2.createdCount = st.createdCount + (n - st.idle.length)
  | 0, st => by simp [acquireMany]
  | n + 1, st => by
    obtain ⟨i1, i2, i3, i4⟩ := acquireMany_drain n (get_page st).2
    obtain ⟨g1, g2, g3⟩ := get_page_parts st
    rw [acquireMany]
    by_cases he : st.idle = []
    · obtain ⟨ge, gc⟩ := g2 he
      refine ⟨by simpa using i1, i2.trans g1, ?_, ?_⟩
      · rw [i3, ge, he]
        simp
      · rw [i4, gc, ge, he]
        simp only [List.length_nil, Nat.sub_zero]
        omega
    · obtain ⟨_, gi, gc⟩ := g3 he
      have hpos : 0 < st.idle.length := List.length_pos.mpr he
      refine ⟨by simpa using i1, i2.trans g1, ?_, ?_⟩
      · rw [i3, gi, List.length_dropLast]
        omega
      · rw [i4, gc, gi, List.length_dropLast]
        omega

theorem return_page_idle_le (st : PoolState) (h : Nat)
    (hle : st.idle.length ≤ st.poolSize) :
    (return_page st h).idle.length ≤ (return_page st h).poolSize := by
  obtain ⟨r1, r2, r3⟩ := return_page_parts st h
  by_cases hlt : st.idle.length < st.poolSize
  · rw [r1, r2 hlt]
    simp only [List.length_append, List.length_singleton]
    omega
  · rw [r1, (r3 hlt).1]
    exact hle

theorem releaseMany_idle_le :
    ∀ (hs : List Nat) (st : PoolState), st.idle.length ≤ st.poolSize →
      (releaseMany hs st).idle.length ≤ (releaseMany hs st).poolSize ∧
      (releaseMany hs st).poolSize = st.poolSize
  | [], st, hle => ⟨hle, rfl⟩
  | h :: hs, st, hle => by
    rw [releaseMany]
    have h1 := return_page_idle_le st h hle
    have h2 := (return_page_parts st h).1
    obtain ⟨i1, i2⟩ := releaseMany_idle_le hs (return_page st h) h1
    exact ⟨i1, i2.trans h2⟩

/-! ### The scroll loop -/

theorem scrollSteps_le (height : Nat → Nat) :
    ∀ (fuel idx : Nat), scrollSteps height idx fuel ≤ fuel
  | 0, _ => Nat.le_refl 0
  | fuel + 1, idx => by
    rw [scrollSteps]
    split
    · omega
    · have := scrollSteps_le height fuel (idx + 1)
      omega

theorem scrollSteps_conv (height : Nat → Nat) :
    ∀ (i fuel idx : Nat),
      (∀ j, j < i → height (idx + j + 1) ≠ height (idx + j)) →
      height (idx + i + 1) = height (idx + i) → i < fuel →
      scrollSteps height idx fuel = i + 1
  | 0, 0, _, _, _, hlt => absurd hlt (by omega)
  | i + 1, 0, _, _, _, hlt => absurd hlt (by omega)
  | 0, fuel + 1, idx, _, hconv, _ => by
    rw [scrollSteps, if_pos (by simpa using hconv)]
  | i + 1, fuel + 1, idx, hne, hconv, hlt => by
    rw [scrollSteps, if_neg (by simpa using hne 0 (Nat.succ_pos i))]
    have hrec := scrollSteps_conv height i fuel (idx + 1)
      (fun j hj => by
        have h' := hne (j + 1) (by omega)
        have e1 : idx + (j + 1) + 1 = idx + 1 + j + 1 := by omega
        have e2 : idx + (j + 1) = idx + 1 + j := by omega
        rw [e1, e2] at h'
        exact h')
      (by
        have e1 : idx + (i + 1) + 1 = idx + 1 + i + 1 := by omega
        have e2 : idx + (i + 1) = idx + 1 + i := by omega
        rw [e1, e2] at hconv
        exact hconv)
      (by omega)
    omega

/-! ## Claim theorems -/

/-- Claim C1, counterexample: the crawl with `maxPages = 2`, `batchSize = 2`,
seed `https://x.test/a` linking to `/b` and `/c` where both links fail to
navigate, runs to completion (pending drained, well before the iteration
bound) with only one record — yet `|visited| = 3 > maxPages = 2`: the
controller dispatched batches pushing the visited set past the budget,
because the loop guard counts scraped records, not visited URLs. -/
theorem budget_visited_overrun_cx :
    c1Run.pending = [] ∧ c1Run.scraped.length = 1 ∧
    c1Run.visited.length = 3 ∧ ¬ c1Run.visited.length ≤ 2 := by decide

/-- Claim C1, amended: for every crawl run the returned result list has
length at most `maxPages`; but the dispatch guard bounds scraped records
plus the batch in formation, not the visited set, so `|visited| ≤ maxPages`
is only guaranteed when every batch member yields a record (see the
counterexample for a failing run). -/
theorem result_length_le_maxPages (pick : List String → Nat)
    (world : String → ScrapeEnv) (resolve : String → String → String)
    (outputDir start_url : String) (max_pages : Option Nat)
    (defaultMaxPages : Nat) (batch_size fuel : Nat)
    (hmp : 1 ≤ resolveMaxPages max_pages defaultMaxPages) :
    (scrape_site pick world resolve outputDir start_url max_pages
      defaultMaxPages batch_size fuel).length ≤
      resolveMaxPages max_pages defaultMaxPages := by
  have h := (crawlLoop_inv pick
    (fun url => (scrape_page resolve outputDir url (world url)).map Prod.fst)
    (netlocOf start_url) batch_size (resolveMaxPages max_pages defaultMaxPages)
    fuel ⟨[], [start_url], []⟩ (by simp)
    (fun _ ha _ => absurd ha (List.not_mem_nil _))).2.2.2
  exact h (Nat.zero_le _)

theorem result_length_le_maxPages_witness :
    (scrape_site pick0 worldOk resolveId "outputs" "https://x.test/a"
      (some 2) 3 2 10).length ≤ 2 :=
  result_length_le_maxPages pick0 worldOk resolveId "outputs"
    "https://x.test/a" (some 2) 3 2 10 (by decide)

/-- Claim C2, counterexample: with seed `https://x.test/a`, the discovered
link `http://x.test/b` has the same host but a different scheme, and the
fold of lines 347-351 queues it anyway — the code compares only
`urlparse(...).netloc`, never the scheme. -/
theorem domain_scope_scheme_cx :
    "http://x.test/b" ∈
      foldLinks (netlocOf "https://x.test/a") [] [] ["http://x.test/b"] ∧
    schemeOf "http://x.test/b" ≠ schemeOf "https://x.test/a" ∧
    netlocOf "http://x.test/b" = netlocOf "https://x.test/a" := by decide

/-- Claim C2, amended: a discovered link is queued iff its `urlparse`
netloc (host) equals the seed's netloc and it is not already visited;
the scheme is not compared, so a same-host link with a different scheme
is added. -/
theorem link_added_iff_netloc_unvisited (dom : String)
    (visited pending links : List String) (u : String) :
    u ∈ foldLinks dom visited pending links ↔
      u ∈ pending ∨ (u ∈ links ∧ netlocOf u = dom ∧ u ∉ visited) :=
  mem_foldLinks dom visited links pending u

/-- Claim C3: on a page whose title tag is empty and which has no `h1` but
a valid Open-Graph title (here `og:title = "  Hello  "`, whose strategy
value is the trimmed `"Hello"`), `get_page_title` does not fall back to the
meta strategy: the no-`h1` branch puts a literal Python `None` into the
task list, `asyncio.as_completed` raises `TypeError` on it outside every
`try` of `get_page_title`, and `scrape_page` swallows the error and
produces no record at all — under every scheduler completion order. -/
theorem title_fallback_crashes_without_h1 :
    (∀ order : List Nat, get_page_title titleBugPage order = .error ()) ∧
    (∀ orderT orderD : List Nat,
      scrape_page resolveId "outputs" "https://x.test/a"
        ⟨.ok titleBugPage, orderT, orderD, "u1", "t0"⟩ = none) ∧
    metaContent titleBugPage.ogTitle = some "Hello" :=
  ⟨fun _ => rfl, fun _ _ => rfl, rfl⟩

/-- Claim C4: a navigation failure is fatal only to its own URL. The
result-processing loop appends exactly the non-absent records, in order
(first conjunct); a failed navigation yields `none` from `scrape_page`
(second conjunct); and the concrete run whose second batch is the three
URLs `/b`, `/c`, `/d` with `/c` failing completes with the seed record plus
exactly the two surviving batch records, drains the frontier, and leaves
the failed URL consumed in `visited` (never retried). -/
theorem nav_failure_isolated :
    (∀ (dom : String) (visited : List String)
        (results : List (Option PageRecord)) (scraped : List PageRecord)
        (pending : List String),
      (processResults dom visited results scraped pending).1 =
        scraped ++ results.filterMap id) ∧
    (∀ (resolve : String → String → String) (outputDir url : String)
        (ordT ordD : List Nat) (uid now : String),
      scrape_page resolve outputDir url ⟨.fail, ordT, ordD, uid, now⟩ = none) ∧
    c4Run.scraped = [recA4, recB, recD] ∧ c4Run.pending = [] ∧
    "https://x.test/c" ∈ c4Run.visited ∧
    (processResults "x.test" c4Run.visited [some recB, none, some recD]
      [] []).1.length = 2 := by
  refine ⟨?_, ?_, by decide, by decide, by decide, by decide⟩
  · intro dom visited results scraped pending
    exact (processResults_spec dom visited results scraped pending).1
  · intro resolve outputDir url ordT ordD uid now
    rfl

/-- Claim C5: the frontier-state invariant. For any crawl state with a
duplicate-free pending set disjoint from visited: the visited set only
grows across a loop iteration; every batch member is marked visited by the
batch-forming loop itself, i.e. before dispatch; a pending URL leaves the
frontier only by entering the batch; every URL entering the frontier is a
link of a successfully fetched batch record whose netloc matches the crawl
domain and which is not in the visited set used for the fold; and
disjointness (with visited monotonicity) holds again at the next iteration
boundary — and, by the final conjunct, at every later boundary of the run. -/
theorem frontier_invariants (pick : List String → Nat)
    (fetch : String → Option PageRecord) (dom : String) (bs mp : Nat)
    (st : CrawlState) (hnd : st.pending.Nodup)
    (hdisj : st.visited.Disjoint st.pending) :
    st.visited ⊆ (crawlStep pick fetch dom bs mp st).1.visited ∧
    (formBatch pick bs mp st.scraped.length st.visited st.pending).batch ⊆
      (formBatch pick bs mp st.scraped.length st.visited st.pending).visited ∧
    (∀ u ∈ st.pending, u ∈ (crawlStep pick fetch dom bs mp st).1.pending ∨
        u ∈ (formBatch pick bs mp st.scraped.length st.visited st.pending).batch) ∧
    (∀ u ∈ (crawlStep pick fetch dom bs mp st).1.pending,
        u ∈ st.pending ∨
          ∃ r, some r ∈ (formBatch pick bs mp st.scraped.length
              st.visited st.pending).batch.map fetch ∧
            u ∈ r.links ∧ netlocOf u = dom ∧
            u ∉ (formBatch pick bs mp st.scraped.length st.visited st.pending).visited) ∧
    (crawlStep pick fetch dom bs mp st).1.visited.Disjoint
      (crawlStep pick fetch dom bs mp st).1.pending ∧
    (∀ fuel, st.visited ⊆ (crawlLoop pick fetch dom bs mp fuel st).visited ∧
        (crawlLoop pick fetch dom bs mp fuel st).visited.Disjoint
          (crawlLoop pick fetch dom bs mp fuel st).pending) := by
  obtain ⟨s1, s2, s3, s4, _, s6, _⟩ := crawlStep_spec pick fetch dom bs mp st hnd hdisj
  refine ⟨s1, s2, s3, s4, s6, ?_⟩
  intro fuel
  obtain ⟨l1, _, l3, _⟩ := crawlLoop_inv pick fetch dom bs mp fuel st hnd hdisj
  exact ⟨l1, l3⟩

theorem frontier_invariants_witness :
    (⟨[], ["https://x.test/a"], []⟩ : CrawlState).visited ⊆
      (crawlStep pick0 fetchC1 "x.test" 2 2
        ⟨[], ["https://x.test/a"], []⟩).1.visited :=
  (frontier_invariants pick0 fetchC1 "x.test" 2 2
    ⟨[], ["https://x.test/a"], []⟩ (by decide)
    (fun _ ha _ => absurd ha (List.not_mem_nil _))).1

/-- Claim C6: for every resolution function, page URL and harvested anchor
list, the `links` field built by lines 199-216 is sorted and
duplicate-free, contains exactly the resolutions of truthy hrefs that start
with `http://` or `https://`, and re-running the extraction on the same
static markup yields an identical list (the whole pipeline is a pure
function of the harvested anchors). -/
theorem links_sorted_nodup_exact (resolve : String → String → String)
    (url : String) (anchors : List (Option String)) :
    (extractLinks resolve url anchors).Sorted (· ≤ ·) ∧
    (extractLinks resolve url anchors).Nodup ∧
    (∀ l, l ∈ extractLinks resolve url anchors ↔
      ∃ href, some href ∈ anchors ∧ href ≠ "" ∧ resolve url href = l ∧
        ("http://".isPrefixOf l ∨ "https://".isPrefixOf l)) ∧
    extractLinks resolve url anchors = extractLinks resolve url anchors := by
  refine ⟨List.sorted_insertionSort _ _,
    ((List.perm_insertionSort _ _).nodup_iff).mpr (List.nodup_dedup _), ?_, rfl⟩
  intro l
  simp only [extractLinks, List.mem_insertionSort, List.mem_dedup,
    List.mem_filterMap]
  constructor
  · rintro ⟨a, ha, hfa⟩
    rcases a with _ | href
    · simp at hfa
    · dsimp only at hfa
      by_cases hemp : href = ""
      · rw [if_pos hemp] at hfa
        simp at hfa
      · rw [if_neg hemp] at hfa
        by_cases hpre : ("http://".isPrefixOf (resolve url href) ||
            "https://".isPrefixOf (resolve url href)) = true
        · rw [if_pos hpre] at hfa
          have hl := Option.some.inj hfa
          refine ⟨href, ha, hemp, hl, ?_⟩
          rw [← hl]
          simpa [Bool.or_eq_true] using hpre
        · rw [if_neg hpre] at hfa
          simp at hfa
  · rintro ⟨href, ha, hemp, hres, hpre⟩
    refine ⟨some href, ha, ?_⟩
    dsimp only
    rw [if_neg hemp, hres, if_pos (by simpa [Bool.or_eq_true] using hpre)]

/-- Claim C7: the pool's idle set is bounded by `poolSize` and acquisition
never blocks. `get_page` hands out an idle handle (without creating) when
one exists and creates a fresh one otherwise; `return_page` re-idles the
handle exactly when the idle set is under `poolSize` and disposes it
otherwise; a batch of `M > N` acquisitions against a pool of size `N` with
at most `N` idle handles hands out `M` handles of which exactly
`st.idle.length ≤ N` are reused and `M - st.idle.length ≥ M - N` are
created on demand, drains the idle set, and after releasing any number of
handles the idle set never exceeds `N`. -/
theorem pool_bounds (st : PoolState) (N M : Nat)
    (hN : st.poolSize = N) (hL : st.idle.length ≤ N) (hM : N < M) :
    (∀ p : PoolState, p.idle ≠ [] →
        (get_page p).1 ∈ p.idle ∧ (get_page p).2.createdCount = p.createdCount) ∧
    (∀ p : PoolState, p.idle = [] →
        (get_page p).2.createdCount = p.createdCount + 1 ∧
        (get_page p).2.idle = []) ∧
    (∀ (p : PoolState) (h : Nat), p.idle.length < p.poolSize →
        (return_page p h).idle = p.idle ++ [h]) ∧
    (∀ (p : PoolState) (h : Nat), ¬ p.idle.length < p.poolSize →
        (return_page p h).idle = p.idle ∧ h ∈ (return_page p h).closed) ∧
    (acquireMany M st).1.length = M ∧
    (acquireMany M st).2.createdCount = st.createdCount + (M - st.idle.length) ∧
    M - N ≤ M - st.idle.length ∧
    (acquireMany M st).2.idle = [] ∧
    (∀ hs : List Nat, (releaseMany hs (acquireMany M st).2).idle.length ≤ N) := by
  obtain ⟨a1, a2, a3, a4⟩ := acquireMany_drain M st
  have hempty : (acquireMany M st).2.idle = [] := by
    have hz : (acquireMany M st).2.idle.length = 0 := by rw [a3]; omega
    exact List.length_eq_zero.mp hz
  refine ⟨?_, ?_, ?_, ?_, a1, a4, by omega, hempty, ?_⟩
  · intro p hp
    obtain ⟨_, _, g3⟩ := get_page_parts p
    exact ⟨(g3 hp).1, (g3 hp).2.2⟩
  · intro p hp
    obtain ⟨_, g2, _⟩ := get_page_parts p
    obtain ⟨ge, gc⟩ := g2 hp
    exact ⟨gc, ge.trans hp⟩
  · intro p h hlt
    exact (return_page_parts p h).2.1 hlt
  · intro p h hlt
    exact (return_page_parts p h).2.2 hlt
  · intro hs
    have hle : (acquireMany M st).2.idle.length ≤ (acquireMany M st).2.poolSize := by
      rw [hempty]
      exact Nat.zero_le _
    obtain ⟨r1, r2⟩ := releaseMany_idle_le hs (acquireMany M st).2 hle
    rw [r2, a2, hN] at r1
    exact r1

theorem pool_bounds_witness :
    (acquireMany 3 (initializePool 2 0)).2.idle = [] :=
  (pool_bounds (initializePool 2 0) 2 3 (by decide) (by decide)
    (by decide)).2.2.2.2.2.2.2.1

/-- Claim C8, counterexample: `scrape_page` itself performs the
persistence: on the successful environment `okEnv` it returns the record
together with one file write (`outputs/x.test/u1.json`) executed inside
the page-processing path, contradicting the claim that writing a record
to a file is left to the caller. -/
theorem scrape_page_persists_cx :
    (scrape_page resolveId "outputs" "https://x.test/a" okEnv).map
      (fun p => p.2) = some [okWrite] := by decide

/-- Claim C8, amended: persistence happens inside `scrape_page`, not in
the caller: every successful `scrape_page` performs exactly one file
write, into the directory `outputDir/<netloc of the requested url>` with a
filename derived from the generated uuid, carrying exactly the returned
record (a failed navigation produces neither record nor write, per the
`scrape_page` model). The crawl entry point still only returns the ordered
record list. -/
theorem scrape_page_single_write (resolve : String → String → String)
    (outputDir url : String) (env : ScrapeEnv) (record : PageRecord)
    (effs : List FileWrite)
    (h : scrape_page resolve outputDir url env = some (record, effs)) :
    effs = [⟨outputDir ++ "/" ++ netlocOf url, env.uuid ++ ".json", record⟩] := by
  rcases env with ⟨nav, ordT, ordD, uid, now⟩
  cases nav with
  | fail => simp [scrape_page] at h
  | ok pg =>
    rcases hT : get_page_title pg ordT with e | title
    · simp [scrape_page, hT] at h
    · rcases hD : get_page_description pg ordD with e | desc
      · simp [scrape_page, hT, hD] at h
      · simp only [scrape_page, hT, hD, Option.some.injEq, Prod.mk.injEq] at h
        obtain ⟨hrec, heffs⟩ := h
        rw [← heffs, ← hrec]

theorem scrape_page_single_write_witness :
    [okWrite] = [⟨"outputs" ++ "/" ++ netlocOf "https://x.test/a",
      "u1" ++ ".json", okRec⟩] :=
  scrape_page_single_write resolveId "outputs" "https://x.test/a" okEnv
    okRec [okWrite] (by decide)

/-- Claim C9: the bottom-scroll loop terminates on every measurement
sequence: it performs at most `maxScrolls` scrolls, and if the first
convergence (two consecutive equal heights) happens at scroll `i + 1`
within the budget, it stops right there with `i + 1` scrolls — whichever
of the two bounds comes first. -/
theorem scroll_terminates (height : Nat → Nat) (maxScrolls : Nat) :
    scroll_to_bottom height maxScrolls ≤ maxScrolls ∧
    (∀ i, (∀ j, j < i → height (j + 1) ≠ height j) →
      height (i + 1) = height i → i < maxScrolls →
      scroll_to_bottom height maxScrolls = i + 1) := by
  constructor
  · exact scrollSteps_le height maxScrolls 0
  · intro i hne hconv hlt
    exact scrollSteps_conv height i maxScrolls 0
      (fun j hj => by simpa using hne j hj) (by simpa using hconv) hlt

theorem scroll_terminates_witness :
    scroll_to_bottom (fun i => min i 2) 5 = 3 ∧
    scroll_to_bottom (fun i => min i 2) 5 ≤ 5 :=
  ⟨(scroll_terminates (fun i => min i 2) 5).2 2 (by decide) (by decide)
    (by decide),
   (scroll_terminates (fun i => min i 2) 5).1⟩

/-- Claim C10: at the `scrape_site` interface a falsy `max_pages` is
silently replaced by the configured default (both for `None` and for an
explicit `0`), so a call with `max_pages = 0` runs with the default budget
and can return a non-empty result list; `headless`, tested with
`is not None`, is honoured even when explicitly `False`. -/
theorem falsy_max_pages_default :
    (∀ d : Nat, resolveMaxPages (some 0) d = d) ∧
    (∀ d : Nat, resolveMaxPages none d = d) ∧
    (∀ d : Bool, resolveHeadless (some false) d = false) ∧
    (∀ d : Bool, resolveHeadless none d = d) ∧
    scrape_site pick0 worldOk resolveId "outputs" "https://x.test/a"
      (some 0) 3 2 10 ≠ [] :=
  ⟨fun _ => rfl, fun _ => rfl, fun _ => rfl, fun _ => rfl, by decide⟩
